import Mathlib

/-!
# Verification of the clive_editor core against its specification

Shallow embedding of the clive_editor sources:

* `Hist`      — the undo/redo history engine (`useHistory` composable).
* `TableOps`  — table row/column mutation (`tableOps.ts`).
* `Slug`      — heading slug generation (`slugify` in `markdown.ts`).
* `Sanitize`  — paste sanitisation (`sanitize.ts`).
* `TableSer`  — GFM table serialization rules (turndown rules in `markdown.ts`).
* `Sel`       — selection helpers (`selection.ts`): cross-cell detection and
  cross-cell delete.

Strings manipulated character-by-character (slugs, table serialization) are
modelled as `List Char`; strings only compared or filtered wholesale are
modelled as `String`.
-/

/- ================================================================== -/
/-  History engine — useHistory composable                             -/
/- ================================================================== -/

namespace Hist

/-- A history checkpoint: `{ markdown, timestamp }` as pushed by `_push`. -/
structure HistoryEntry where
  markdown : String
  timestamp : Nat
deriving DecidableEq, Repr

/-- The two stacks of the history engine.  The top of each stack is the
*last* element of the list, matching JavaScript `push`/`pop` on arrays. -/
structure HistoryState where
  undoStack : List HistoryEntry
  redoStack : List HistoryEntry
deriving DecidableEq, Repr

/-- Computed `canUndo`: `undoStack.value.length > 1`. -/
def canUndo (s : HistoryState) : Bool := decide (1 < s.undoStack.length)

/-- Computed `canRedo`: `redoStack.value.length > 0`. -/
def canRedo (s : HistoryState) : Bool := decide (0 < s.redoStack.length)

/-- Operation `init(markdown)`: reset the undo stack to a single entry, clear redo. -/
def init (markdown : String) (ts : Nat) : HistoryState :=
  { undoStack := [{ markdown := markdown, timestamp := ts }], redoStack := [] }

/-- Internal `_push(markdown)`: skip when equal to the current top, otherwise append
an entry, trim the front down to `maxDepth`, and clear the redo stack.
`ts` stands for `Date.now()`. -/
def _push (maxDepth : Nat) (markdown : String) (ts : Nat)
    (s : HistoryState) : HistoryState :=
  match s.undoStack.getLast? with
  | some top =>
    if top.markdown = markdown then s
    else
      let u := s.undoStack ++ [{ markdown := markdown, timestamp := ts }]
      let u' := if maxDepth < u.length then u.drop (u.length - maxDepth) else u
      { undoStack := u', redoStack := [] }
  | none =>
    let u := s.undoStack ++ [{ markdown := markdown, timestamp := ts }]
    let u' := if maxDepth < u.length then u.drop (u.length - maxDepth) else u
    { undoStack := u', redoStack := [] }

/-- Operation `pushImmediate(markdown)`: cancels the debounce timer (not modelled —
purely temporal) and performs `_push` synchronously. -/
def pushImmediate (maxDepth : Nat) (markdown : String) (ts : Nat)
    (s : HistoryState) : HistoryState :=
  _push maxDepth markdown ts s

/-- Operation `undo()`: `null` when `canUndo` is false; otherwise pop the current top
onto the redo stack and return the new top. -/
def undo (s : HistoryState) : Option HistoryEntry × HistoryState :=
  if canUndo s = false then (none, s)
  else
    match s.undoStack.getLast? with
    | none => (none, s)   -- unreachable: canUndo implies a non-empty stack
    | some current =>
      let u' := s.undoStack.dropLast
      (u'.getLast?, { undoStack := u', redoStack := s.redoStack ++ [current] })

/-- Operation `redo()`: `null` when `canRedo` is false; otherwise pop the redo stack,
push that entry back onto the undo stack and return it. -/
def redo (s : HistoryState) : Option HistoryEntry × HistoryState :=
  if canRedo s = false then (none, s)
  else
    match s.redoStack.getLast? with
    | none => (none, s)   -- unreachable: canRedo implies a non-empty stack
    | some entry =>
      (some entry,
       { undoStack := s.undoStack ++ [entry], redoStack := s.redoStack.dropLast })

/-- Operation `clear()`: empty both stacks. -/
def clear (_s : HistoryState) : HistoryState :=
  { undoStack := [], redoStack := [] }

/-- States reachable through the public history operations, starting from
`init`.  `step_push` covers both `pushImmediate` and a firing `pushState`
debounce (both invoke `_push`). -/
inductive Reached (maxDepth : Nat) : HistoryState → Prop where
  | step_init (markdown : String) (ts : Nat) :
      Reached maxDepth (init markdown ts)
  | step_push (markdown : String) (ts : Nat) (s : HistoryState) :
      Reached maxDepth s → Reached maxDepth (_push maxDepth markdown ts s)
  | step_undo (s : HistoryState) :
      Reached maxDepth s → Reached maxDepth (undo s).2
  | step_redo (s : HistoryState) :
      Reached maxDepth s → Reached maxDepth (redo s).2
  | step_clear (s : HistoryState) :
      Reached maxDepth s → Reached maxDepth (clear s)

end Hist

/- ================================================================== -/
/-  Table row / column manipulation — tableOps.ts                      -/
/- ================================================================== -/

namespace TableOps

/-- A table cell: `<th>` or `<td>` with its inner HTML. -/
structure CellM where
  header : Bool
  content : String
deriving DecidableEq, Repr

/-- A `<tr>` is its list of cells. -/
abbrev RowM := List CellM

/-- A table as produced by the editor: a `<thead>` section followed by a
`<tbody>` section (document order).  `querySelectorAll('tr')` traverses
`headRows ++ bodyRows`. -/
structure TableM where
  headRows : List RowM
  bodyRows : List RowM
deriving DecidableEq, Repr

/-- The non-breaking-space placeholder written by `innerHTML = '&nbsp;'`. -/
def nbsp : String := "\u00A0"

/-- Function `getColumnCount`: cell count of the first `<tr>` of the table
(`table.querySelector('tr')`), `0` when the table has no row. -/
def getColumnCount (t : TableM) : Nat :=
  match (t.headRows ++ t.bodyRows).head? with
  | some r => r.length
  | none => 0

/-- Function `createDataRow(colCount)`: a `<tr>` of `colCount` `<td>` cells, each
initialised to `&nbsp;`. -/
def createDataRow (colCount : Nat) : RowM :=
  List.replicate colCount { header := false, content := nbsp }

/-- Location of the row holding the clicked cell: in the `<thead>` or at
index `i` of the `<tbody>`. -/
structure RowLoc where
  inHead : Bool
  idx : Nat
deriving DecidableEq, Repr

/-- Function `addRowAbove(cell)`: build a data row of `getColumnCount` cells; when
the clicked row sits in the `<thead>`, insert at the start of the
`<tbody>` (creating it if absent), else insert before the clicked row.
Returns the new row together with the updated table. -/
def addRowAbove (t : TableM) (loc : RowLoc) : RowM × TableM :=
  let newRow := createDataRow (getColumnCount t)
  if loc.inHead then
    (newRow, { t with bodyRows := newRow :: t.bodyRows })
  else
    (newRow, { t with bodyRows := t.bodyRows.insertIdx loc.idx newRow })

/-- Function `addRowBelow(cell)`: same construction; a `<thead>` row redirects to the
start of the `<tbody>`, otherwise the new row goes after the clicked row. -/
def addRowBelow (t : TableM) (loc : RowLoc) : RowM × TableM :=
  let newRow := createDataRow (getColumnCount t)
  if loc.inHead then
    (newRow, { t with bodyRows := newRow :: t.bodyRows })
  else
    (newRow, { t with bodyRows := t.bodyRows.insertIdx (loc.idx + 1) newRow })

/-- Function `removeRow(cell)`: refuse on a `<thead>` row; refuse when the `<tbody>`
has at most one row; otherwise remove the clicked row (`row.remove()`) and
report success. -/
def removeRow (t : TableM) (loc : RowLoc) : Bool × TableM :=
  if loc.inHead then (false, t)
  else if t.bodyRows.length ≤ 1 then (false, t)
  else (true, { t with bodyRows := t.bodyRows.eraseIdx loc.idx })

end TableOps

/- ================================================================== -/
/-  Heading slugs — slugify in markdown.ts                             -/
/- ================================================================== -/

namespace Slug

/-- Strings processed character-by-character. -/
abbrev Str := List Char

/-- JavaScript `\s` (ASCII part): space, tab, LF, CR, VT, FF. -/
def isWsJs (c : Char) : Bool :=
  c = ' ' || c = '\t' || c = '\n' || c = '\r' || c = '\x0b' || c = '\x0c'

/-- JavaScript `\w`: ASCII letters, digits, underscore. -/
def isWordCh (c : Char) : Bool := c.isAlphanum || c = '_'

/-- JavaScript `String.prototype.trim()`: drop whitespace from both ends. -/
def jsTrim (s : Str) : Str :=
  ((s.dropWhile isWsJs).reverse.dropWhile isWsJs).reverse

/-- The global replace deleting by the class `[^\w\s-]`: delete every character that is not a word
character, whitespace, or hyphen. -/
def stripNonWord (s : Str) : Str :=
  s.filter (fun c => isWordCh c || isWsJs c || c = '-')

/-- Replace every maximal run of characters satisfying `p` by the single
character `r`; `inRun` records whether the previous character was in a run.
Models `.replace(/X+/g, r)`. -/
def squashGo (p : Char → Bool) (r : Char) (inRun : Bool) : Str → Str
  | [] => []
  | c :: cs =>
    if p c then
      if inRun then squashGo p r true cs
      else r :: squashGo p r true cs
    else c :: squashGo p r false cs

/-- The global replace of `\s+` by `-`: each whitespace run becomes one hyphen. -/
def wsToHyphen (s : Str) : Str := squashGo isWsJs '-' false s

/-- The global `-+` to `-` replace: collapse consecutive hyphens. -/
def collapseHyphens (s : Str) : Str := squashGo (fun c => c = '-') '-' false s

/-- Function `slugify(text)`: the chained `toLowerCase / trim / replace` pipeline of
`markdown.ts`. -/
def slugify (s : Str) : Str :=
  collapseHyphens (wsToHyphen (stripNonWord (jsTrim (s.map Char.toLower))))

end Slug

/- ================================================================== -/
/-  Paste sanitisation — sanitize.ts                                   -/
/- ================================================================== -/

namespace Sanitize

/-- A parsed HTML node: element (uppercase `tagName`, attributes, children),
text, or comment. -/
inductive HNode where
  | elem (tag : String) (attrs : List (String × String)) (children : List HNode)
  | text (s : String)
  | comment (s : String)
deriving Repr

/-- Constant `REMOVE_WITH_CONTENT`: tags removed together with their content. -/
def REMOVE_WITH_CONTENT : List String :=
  ["SCRIPT", "STYLE", "IFRAME", "OBJECT", "EMBED", "APPLET",
   "FORM", "INPUT", "TEXTAREA", "SELECT", "BUTTON",
   "LINK", "META", "NOSCRIPT"]

/-- Constant `ALLOWED_ATTRS`: the attribute allow-list. -/
def ALLOWED_ATTRS : List String :=
  ["href", "src", "alt", "title", "width", "height",
   "colspan", "rowspan", "class"]

/-- The attribute loop of `cleanNode`: an attribute survives iff its
lowercased name does not start with `on`, is not `style`, is on the
allow-list, and — for `href`/`src` — its trimmed lowercased value starts
with neither `javascript:` nor `data:text/html`. -/
def attrKeep (a : String × String) : Bool :=
  let name := a.1.toLower
  if name.startsWith "on" then false
  else if name = "style" then false
  else if !(name ∈ ALLOWED_ATTRS) then false
  else if name = "href" || name = "src" then
    let val := a.2.trim.toLower
    !(val.startsWith "javascript:" || val.startsWith "data:text/html")
  else true

/-- Function `cleanNode(node)` acting on a child list: dangerous elements are removed
with their content, comments are removed, surviving elements keep only the
attributes passing `attrKeep` and are cleaned recursively.  `sanitizeHtml`
is this function applied to the children of the parsed `<body>`. -/
def sanitizeHtml : List HNode → List HNode
  | [] => []
  | HNode.elem tag attrs kids :: rest =>
    if tag ∈ REMOVE_WITH_CONTENT then sanitizeHtml rest
    else HNode.elem tag (attrs.filter attrKeep) (sanitizeHtml kids) :: sanitizeHtml rest
  | HNode.text s :: rest => HNode.text s :: sanitizeHtml rest
  | HNode.comment _ :: rest => sanitizeHtml rest

/-- The tag set named by the safety claim (a subset of
`REMOVE_WITH_CONTENT`). -/
def badTagsClaim : List String :=
  ["SCRIPT", "STYLE", "IFRAME", "OBJECT", "EMBED", "APPLET",
   "FORM", "INPUT", "TEXTAREA", "SELECT", "BUTTON"]

/-- The claim's per-attribute safety predicate. -/
def attrSafe (a : String × String) : Bool :=
  let name := a.1.toLower
  !(name.startsWith "on") &&
  name ≠ "style" &&
  (name ∈ ALLOWED_ATTRS) &&
  (if name = "href" || name = "src" then
     !((a.2.trim.toLower).startsWith "javascript:" ||
       (a.2.trim.toLower).startsWith "data:text/html")
   else true)

/-- The claim's safety predicate over a node forest: no element of the
claimed tag set anywhere, and every attribute of every element safe. -/
def forestSafe : List HNode → Bool
  | [] => true
  | HNode.elem tag attrs kids :: rest =>
    !(tag ∈ badTagsClaim) && attrs.all attrSafe && forestSafe kids && forestSafe rest
  | HNode.text _ :: rest => forestSafe rest
  | HNode.comment _ :: rest => forestSafe rest

end Sanitize

/- ================================================================== -/
/-  GFM table serialization — turndown rules in markdown.ts            -/
/- ================================================================== -/

namespace TableSer

open Slug (Str isWsJs jsTrim)

/-- JavaScript `Array.prototype.join(sep)` over character lists. -/
def joinSep (sep : Str) : List Str → Str
  | [] => []
  | [x] => x
  | x :: y :: rest => x ++ sep ++ joinSep sep (y :: rest)

/-- The global newline-to-space replace in `cellContent`. -/
def collapseNl (s : Str) : Str := s.map (fun c => if c = '\n' then ' ' else c)

/-- Function `cellContent(cell)`: the recursively serialized cell markdown with
inner newlines collapsed to spaces, then trimmed.  The argument is the
result of `td.turndown(cell.innerHTML)`. -/
def cellContent (s : Str) : Str := jsTrim (collapseNl s)

/-- The `tableRow` rule: each cell becomes `\x20${cellContent}\x20`, the
cells are joined with `|`, and the row is wrapped in `|…|` plus a
newline. -/
def tableRowRule (cells : List Str) : Str :=
  '|' :: joinSep ['|'] (cells.map (fun c => ' ' :: cellContent c ++ [' '])) ++ ['|', '\n']

/-- The separator built by the `tableHead` rule: one `\x20---\x20` segment
per cell of the first header row, joined with `|`, wrapped in `|…|`. -/
def headSeparator (cells : List Str) : Str :=
  '|' :: joinSep ['|'] (cells.map (fun _ => [' ', '-', '-', '-', ' '])) ++ ['|', '\n']

/-- The `tableHead` rule: the serialized header rows followed by the
separator line derived from the first header row (unchanged content when
the `<thead>` holds no row). -/
def tableHeadRule (rows : List (List Str)) : Str :=
  (rows.map tableRowRule).flatten ++
    (match rows.head? with
     | some first => headSeparator first
     | none => [])

/-- The `tableBody` rule passes its serialized rows through. -/
def tableBodyRule (rows : List (List Str)) : Str :=
  (rows.map tableRowRule).flatten

/-- The `table` rule: `\n\n${content}\n` around the serialized
`<thead>` + `<tbody>` content. -/
def tableRule (headRows bodyRows : List (List Str)) : Str :=
  ['\n', '\n'] ++ tableHeadRule headRows ++ tableBodyRule bodyRows ++ ['\n']

/-- Row line shape as worded by the spec: `| cell | cell |`. -/
def specRowLine (cells : List Str) : Str :=
  ['|', ' '] ++ joinSep [' ', '|', ' '] (cells.map cellContent) ++ [' ', '|', '\n']

/-- Separator line shape as worded by the spec: one `---` per column. -/
def specSeparator (n : Nat) : Str :=
  ['|', ' '] ++ joinSep [' ', '|', ' '] (List.replicate n ['-', '-', '-']) ++ [' ', '|', '\n']

end TableSer

/- ================================================================== -/
/-  Selection helpers — selection.ts                                   -/
/- ================================================================== -/

namespace Sel

/-- What `walkUpToCell` / `isInsideTable` inspect about one DOM node:
identity, whether it is an element, its `tagName`, and whether it is the
contenteditable boundary. -/
structure NodeInfo where
  id : Nat
  isElem : Bool
  tag : String
  editable : Bool
deriving DecidableEq, Repr

/-- A DOM position named by its ancestor chain: the node itself first,
then its parent, and so on up to the document root. -/
abbrev Chain := List NodeInfo

/-- Function `walkUpToCell(node)`: ascend until a `TD`/`TH` is found; give up at a
`TABLE` element or at the contenteditable boundary. -/
def walkUpToCell : Chain → Option NodeInfo
  | [] => none
  | n :: rest =>
    if n.isElem then
      if n.tag = "TD" || n.tag = "TH" then some n
      else if n.tag = "TABLE" || n.editable then none
      else walkUpToCell rest
    else walkUpToCell rest

/-- Function `isInsideTable(node)`: ascend looking for a `TABLE` element, stopping
at the contenteditable boundary. -/
def isInsideTable : Chain → Bool
  | [] => false
  | n :: rest =>
    if n.isElem && n.tag = "TABLE" then true
    else if n.isElem && n.editable then false
    else isInsideTable rest

/-- The selection state read by `isSelectionCrossCell`: collapsed flag,
the range's common ancestor container, and the start/end containers, each
as an ancestor chain. -/
structure SelectionM where
  collapsed : Bool
  commonAncestor : Chain
  startC : Chain
  endC : Chain
deriving DecidableEq, Repr

/-- Function `isSelectionCrossCell()` as written in `selection.ts`: collapsed
selections are never cross-cell; then the sequential `return` chain over
the common ancestor, the containing table, and the two endpoint cells. -/
def isSelectionCrossCell (sel : SelectionM) : Bool :=
  if sel.collapsed then false
  else if (walkUpToCell sel.commonAncestor).isSome then false
  else if !(isInsideTable sel.commonAncestor) then false
  else
    let startCell := walkUpToCell sel.startC
    let endCell := walkUpToCell sel.endC
    if startCell.isSome && endCell.isSome && startCell ≠ endCell then true
    else if startCell.isSome && endCell.isSome && startCell = endCell then false
    else if startCell.isSome || endCell.isSome then false
    else true

/-- The 4-branch decision procedure exactly as the specification words it:
(1) common ancestor in a single cell — not cross-cell; (2) not inside any
table — not cross-cell; (3) two distinct resolved cells — cross-cell; one
resolved and one unresolved side — not cross-cell; neither side resolved —
cross-cell.  (Both sides resolving to the same cell is within one cell.) -/
def crossCellSpec (sel : SelectionM) : Bool :=
  if (walkUpToCell sel.commonAncestor).isSome then false
  else if !(isInsideTable sel.commonAncestor) then false
  else
    match walkUpToCell sel.startC, walkUpToCell sel.endC with
    | some s, some e => decide (s ≠ e)
    | some _, none => false
    | none, some _ => false
    | none, none => true

end Sel

/- ================================================================== -/
/-  Cross-cell delete — handleCrossCellDelete in selection.ts          -/
/- ================================================================== -/

namespace CrossDel

/-- A table cell as seen by `handleCrossCellDelete`: its content together
with the document-order span `[lo, hi)` produced by
`selectNodeContents(cell)` on a fresh range. -/
structure GCell where
  content : String
  lo : Int
  hi : Int
deriving DecidableEq, Repr

/-- Function `isCellInSelection(cell, range)`: the two `compareBoundaryPoints`
tests — the range end lies after the cell start and the range start lies
before the cell end. -/
def isCellInSelection (rs re : Int) (c : GCell) : Bool :=
  decide (c.lo < re) && decide (rs < c.hi)

/-- Clearing one cell: `cell.innerHTML = ''` keeps the cell, erases its
content. -/
def clearCell (c : GCell) : GCell := { c with content := "" }

/-- Function `handleCrossCellDelete()` on a table already resolved from the range's
common ancestor: every intersecting cell is cleared in place; the cursor
(returned as the flattened index of the cell that receives the collapsed
caret) goes to the cell resolved from the anchor, falling back to the
table's first cell. -/
def handleCrossCellDelete (rows : List (List GCell)) (rs re : Int)
    (anchor : Option Nat) : List (List GCell) × Option Nat :=
  (rows.map (fun row => row.map
      (fun c => if isCellInSelection rs re c then clearCell c else c)),
   match anchor with
   | some k => some k
   | none => if rows.flatten.length = 0 then none else some 0)

end CrossDel

/- ================================================================== -/
/-  Theorems                                                           -/
/- ================================================================== -/

/-- C3: For distinct markdown strings `X ≠ Y`: right after `init(X)`,
`canUndo` is false; after `pushImmediate(Y)`, `canUndo` is true and
`undo()` returns the entry with markdown `X`; after that undo, `canRedo`
is true and `redo()` returns the entry with markdown `Y`.  Moreover
`undo()` returns null whenever `canUndo` is false, and `redo()` returns
null whenever `canRedo` is false. -/
theorem history_init_push_undo_redo (X Y : String) (ts0 ts1 : Nat) (hXY : X ≠ Y) :
    Hist.canUndo (Hist.init X ts0) = false ∧
    Hist.canUndo (Hist.pushImmediate 100 Y ts1 (Hist.init X ts0)) = true ∧
    (Hist.undo (Hist.pushImmediate 100 Y ts1 (Hist.init X ts0))).1 =
      some { markdown := X, timestamp := ts0 } ∧
    Hist.canRedo (Hist.undo (Hist.pushImmediate 100 Y ts1 (Hist.init X ts0))).2 = true ∧
    (Hist.redo (Hist.undo (Hist.pushImmediate 100 Y ts1 (Hist.init X ts0))).2).1 =
      some { markdown := Y, timestamp := ts1 } ∧
    (∀ s, Hist.canUndo s = false → (Hist.undo s).1 = none) ∧
    (∀ s, Hist.canRedo s = false → (Hist.redo s).1 = none) := by
  have hYX : Y ≠ X := fun h => hXY h.symm
  refine ⟨rfl, ?_, ?_, ?_, ?_, ?_, ?_⟩
  · simp [Hist.pushImmediate, Hist._push, Hist.init, Hist.canUndo, hXY]
  · simp [Hist.pushImmediate, Hist._push, Hist.init, Hist.canUndo, Hist.undo, hXY]
  · simp [Hist.pushImmediate, Hist._push, Hist.init, Hist.canUndo, Hist.canRedo,
      Hist.undo, hXY]
  · simp [Hist.pushImmediate, Hist._push, Hist.init, Hist.canUndo, Hist.canRedo,
      Hist.undo, Hist.redo, hXY]
  · intro s h
    simp [Hist.undo, h]
  · intro s h
    simp [Hist.redo, h]

/-- Witness for C3 at `X = "a"`, `Y = "b"`. -/
theorem history_init_push_undo_redo_witness :
    Hist.canUndo (Hist.init "a" 0) = false ∧
    (Hist.undo (Hist.pushImmediate 100 "b" 1 (Hist.init "a" 0))).1 =
      some { markdown := "a", timestamp := 0 } ∧
    (Hist.redo (Hist.undo (Hist.pushImmediate 100 "b" 1 (Hist.init "a" 0))).2).1 =
      some { markdown := "b", timestamp := 1 } :=
  ⟨(history_init_push_undo_redo "a" "b" 0 1 (by decide)).1,
   (history_init_push_undo_redo "a" "b" 0 1 (by decide)).2.2.1,
   (history_init_push_undo_redo "a" "b" 0 1 (by decide)).2.2.2.2.1⟩

/-- C2: `removeRow` refuses (returns `false`, table unchanged) on the
header row and on the last remaining body row; otherwise it removes
exactly the clicked row and returns `true`. -/
theorem removeRow_guards (t : TableOps.TableM) (loc : TableOps.RowLoc)
    (hvalid : loc.inHead = false → loc.idx < t.bodyRows.length) :
    (loc.inHead = true → TableOps.removeRow t loc = (false, t)) ∧
    (loc.inHead = false → t.bodyRows.length = 1 →
      TableOps.removeRow t loc = (false, t)) ∧
    (loc.inHead = false → 1 < t.bodyRows.length →
      (TableOps.removeRow t loc).1 = true ∧
      (TableOps.removeRow t loc).2.headRows = t.headRows ∧
      (TableOps.removeRow t loc).2.bodyRows =
        t.bodyRows.take loc.idx ++ t.bodyRows.drop (loc.idx + 1) ∧
      (TableOps.removeRow t loc).2.bodyRows.length + 1 = t.bodyRows.length) := by
  refine ⟨?_, ?_, ?_⟩
  · intro h
    simp [TableOps.removeRow, h]
  · intro h h1
    simp [TableOps.removeRow, h, h1]
  · intro h h1
    have hlt := hvalid h
    have hgt : ¬ t.bodyRows.length ≤ 1 := by omega
    refine ⟨by simp [TableOps.removeRow, h, hgt], by simp [TableOps.removeRow, h, hgt], ?_, ?_⟩
    · simp [TableOps.removeRow, h, hgt, List.eraseIdx_eq_take_drop_succ]
    · simp only [TableOps.removeRow, h, Bool.false_eq_true, if_false, hgt, if_neg]
      have := List.length_eraseIdx_add_one hlt
      simpa using this

/-- Witness for C2 on a 2-body-row table: removing body row 0 succeeds,
removing the header row is refused. -/
theorem removeRow_guards_witness :
    (TableOps.removeRow
        { headRows := [[{ header := true, content := "H" }]],
          bodyRows := [[{ header := false, content := "1" }],
                       [{ header := false, content := "2" }]] }
        { inHead := false, idx := 0 }).1 = true ∧
    TableOps.removeRow
        { headRows := [[{ header := true, content := "H" }]],
          bodyRows := [[{ header := false, content := "1" }],
                       [{ header := false, content := "2" }]] }
        { inHead := true, idx := 0 } =
      (false,
        { headRows := [[{ header := true, content := "H" }]],
          bodyRows := [[{ header := false, content := "1" }],
                       [{ header := false, content := "2" }]] }) :=
  ⟨((removeRow_guards _ _ (by intro _; decide)).2.2 rfl (by decide)).1,
   (removeRow_guards
      { headRows := [[{ header := true, content := "H" }]],
        bodyRows := [[{ header := false, content := "1" }],
                     [{ header := false, content := "2" }]] }
      { inHead := true, idx := 0 } (by intro h; simp at h)).1 rfl⟩

/-- C10: `addRowAbove`/`addRowBelow` create a row whose cell count is
the table's *first* row's width (`getColumnCount`), every cell a data
cell holding a non-breaking space, independent of the clicked row's own
width; the new row is added to the body section. -/
theorem addRow_header_width (t : TableOps.TableM) (loc : TableOps.RowLoc)
    (r0 : TableOps.RowM) (h0 : (t.headRows ++ t.bodyRows).head? = some r0)
    (hidx : loc.inHead = false → loc.idx < t.bodyRows.length) :
    (TableOps.addRowAbove t loc).1.length = r0.length ∧
    (TableOps.addRowBelow t loc).1.length = r0.length ∧
    (∀ c ∈ (TableOps.addRowAbove t loc).1,
      c.header = false ∧ c.content = TableOps.nbsp) ∧
    (∀ c ∈ (TableOps.addRowBelow t loc).1,
      c.header = false ∧ c.content = TableOps.nbsp) ∧
    (TableOps.addRowAbove t loc).2.bodyRows.length = t.bodyRows.length + 1 ∧
    (TableOps.addRowBelow t loc).2.bodyRows.length = t.bodyRows.length + 1 ∧
    (TableOps.addRowAbove t loc).2.headRows = t.headRows ∧
    (TableOps.addRowBelow t loc).2.headRows = t.headRows := by
  have hcc : TableOps.getColumnCount t = r0.length := by
    simp [TableOps.getColumnCount, h0]
  have habove1 : (TableOps.addRowAbove t loc).1 =
      TableOps.createDataRow (TableOps.getColumnCount t) := by
    by_cases h : loc.inHead <;> simp [TableOps.addRowAbove, h]
  have hbelow1 : (TableOps.addRowBelow t loc).1 =
      TableOps.createDataRow (TableOps.getColumnCount t) := by
    by_cases h : loc.inHead <;> simp [TableOps.addRowBelow, h]
  refine ⟨?_, ?_, ?_, ?_, ?_, ?_, ?_, ?_⟩
  · simp [habove1, TableOps.createDataRow, hcc]
  · simp [hbelow1, TableOps.createDataRow, hcc]
  · intro c hc
    rw [habove1] at hc
    have := List.eq_of_mem_replicate hc
    simp [this]
  · intro c hc
    rw [hbelow1] at hc
    have := List.eq_of_mem_replicate hc
    simp [this]
  · by_cases h : loc.inHead
    · simp [TableOps.addRowAbove, h]
    · have := hidx (by simpa using h)
      simp [TableOps.addRowAbove, h]
      rw [List.length_insertIdx _ _ (by omega)]
  · by_cases h : loc.inHead
    · simp [TableOps.addRowBelow, h]
    · have := hidx (by simpa using h)
      simp [TableOps.addRowBelow, h]
      rw [List.length_insertIdx _ _ (by omega)]
  · by_cases h : loc.inHead <;> simp [TableOps.addRowAbove, h]
  · by_cases h : loc.inHead <;> simp [TableOps.addRowBelow, h]

/-- Witness for C10 on a ragged table: the header (first) row has 3 cells,
the clicked body row only 1, and the inserted row still gets 3 cells. -/
theorem addRow_header_width_witness :
    (TableOps.addRowAbove
        { headRows := [[{ header := true, content := "A" },
                        { header := true, content := "B" },
                        { header := true, content := "C" }]],
          bodyRows := [[{ header := false, content := "only" }]] }
        { inHead := false, idx := 0 }).1.length =
      ([{ header := true, content := "A" },
        { header := true, content := "B" },
        { header := true, content := "C" }] : TableOps.RowM).length :=
  (addRow_header_width
    { headRows := [[{ header := true, content := "A" },
                    { header := true, content := "B" },
                    { header := true, content := "C" }]],
      bodyRows := [[{ header := false, content := "only" }]] }
    { inHead := false, idx := 0 }
    [{ header := true, content := "A" },
     { header := true, content := "B" },
     { header := true, content := "C" }]
    rfl (fun _ => by decide)).1

/-- C6: `slugify` is the deterministic pipeline lowercase → trim →
strip non-word/space/hyphen characters → whitespace runs to one hyphen →
collapse hyphen runs, and produces the two slugs named by the
specification. -/
theorem slugify_pipeline_and_examples :
    (∀ s t : Slug.Str, s = t → Slug.slugify s = Slug.slugify t) ∧
    (∀ s : Slug.Str, Slug.slugify s =
      Slug.collapseHyphens
        (Slug.wsToHyphen (Slug.stripNonWord (Slug.jsTrim (s.map Char.toLower))))) ∧
    Slug.slugify "Hello, World!".toList = "hello-world".toList ∧
    Slug.slugify "  multiple   spaces ".toList = "multiple-spaces".toList :=
  ⟨fun _ _ h => by rw [h], fun _ => rfl, by decide, by decide⟩

/-- Witness for C6: determinism instantiated at a concrete heading. -/
theorem slugify_pipeline_witness :
    Slug.slugify "Intro".toList = Slug.slugify "Intro".toList :=
  slugify_pipeline_and_examples.1 "Intro".toList "Intro".toList rfl

/-- C1: For every non-collapsed selection, `isSelectionCrossCell`
decides cross-cell status by exactly the specified 4-branch procedure:
common ancestor in a cell ⇒ false; not inside a table ⇒ false; otherwise
two distinct resolved endpoint cells ⇒ true, exactly one resolved ⇒
false, neither resolved ⇒ true. -/
theorem isSelectionCrossCell_four_branch (sel : Sel.SelectionM)
    (h : sel.collapsed = false) :
    Sel.isSelectionCrossCell sel = Sel.crossCellSpec sel := by
  unfold Sel.isSelectionCrossCell Sel.crossCellSpec
  rw [h]
  simp only [Bool.false_eq_true, if_false]
  by_cases h1 : (Sel.walkUpToCell sel.commonAncestor).isSome
  · simp [h1]
  · by_cases h2 : Sel.isInsideTable sel.commonAncestor
    · cases hs : Sel.walkUpToCell sel.startC <;>
        cases he : Sel.walkUpToCell sel.endC
      · simp [h1, h2, hs, he]
      · simp [h1, h2, hs, he]
      · simp [h1, h2, hs, he]
      · rename_i s e
        by_cases hse : s = e <;> simp [h1, h2, hs, he, hse]
    · simp [h1, h2]

/-- Witness for C1: a selection spanning two `TD` cells of one `TR`; both
codifications agree and report cross-cell. -/
theorem isSelectionCrossCell_four_branch_witness :
    Sel.isSelectionCrossCell
        { collapsed := false,
          commonAncestor := [{ id := 2, isElem := true, tag := "TR", editable := false },
                             { id := 1, isElem := true, tag := "TABLE", editable := false }],
          startC := [{ id := 5, isElem := false, tag := "", editable := false },
                     { id := 3, isElem := true, tag := "TD", editable := false },
                     { id := 2, isElem := true, tag := "TR", editable := false },
                     { id := 1, isElem := true, tag := "TABLE", editable := false }],
          endC := [{ id := 6, isElem := false, tag := "", editable := false },
                   { id := 4, isElem := true, tag := "TD", editable := false },
                   { id := 2, isElem := true, tag := "TR", editable := false },
                   { id := 1, isElem := true, tag := "TABLE", editable := false }] } =
      Sel.crossCellSpec
        { collapsed := false,
          commonAncestor := [{ id := 2, isElem := true, tag := "TR", editable := false },
                             { id := 1, isElem := true, tag := "TABLE", editable := false }],
          startC := [{ id := 5, isElem := false, tag := "", editable := false },
                     { id := 3, isElem := true, tag := "TD", editable := false },
                     { id := 2, isElem := true, tag := "TR", editable := false },
                     { id := 1, isElem := true, tag := "TABLE", editable := false }],
          endC := [{ id := 6, isElem := false, tag := "", editable := false },
                   { id := 4, isElem := true, tag := "TD", editable := false },
                   { id := 2, isElem := true, tag := "TR", editable := false },
                   { id := 1, isElem := true, tag := "TABLE", editable := false }] } ∧
    Sel.isSelectionCrossCell
        { collapsed := false,
          commonAncestor := [{ id := 2, isElem := true, tag := "TR", editable := false },
                             { id := 1, isElem := true, tag := "TABLE", editable := false }],
          startC := [{ id := 5, isElem := false, tag := "", editable := false },
                     { id := 3, isElem := true, tag := "TD", editable := false },
                     { id := 2, isElem := true, tag := "TR", editable := false },
                     { id := 1, isElem := true, tag := "TABLE", editable := false }],
          endC := [{ id := 6, isElem := false, tag := "", editable := false },
                   { id := 4, isElem := true, tag := "TD", editable := false },
                   { id := 2, isElem := true, tag := "TR", editable := false },
                   { id := 1, isElem := true, tag := "TABLE", editable := false }] } = true :=
  ⟨isSelectionCrossCell_four_branch _ rfl, by decide⟩

/-- C8: `handleCrossCellDelete` clears exactly the cells intersecting
the range: shape, per-row widths and total cell count are preserved, a
cell's content becomes empty iff the cell intersects the selection (its
span untouched), non-intersecting cells are completely unchanged, and the
cursor collapses into the resolved anchor cell. -/
theorem handleCrossCellDelete_clears_intersected
    (rows : List (List CrossDel.GCell)) (rs re : Int) (anchor : Option Nat) :
    (CrossDel.handleCrossCellDelete rows rs re anchor).1.length = rows.length ∧
    (∀ i : Nat,
      ((CrossDel.handleCrossCellDelete rows rs re anchor).1[i]?).map List.length =
        (rows[i]?).map List.length) ∧
    (CrossDel.handleCrossCellDelete rows rs re anchor).1.flatten.length =
      rows.flatten.length ∧
    (∀ i j : Nat,
      ((CrossDel.handleCrossCellDelete rows rs re anchor).1[i]?.bind (fun r => r[j]?)) =
        (rows[i]?.bind (fun r => r[j]?)).map
          (fun c => if CrossDel.isCellInSelection rs re c then CrossDel.clearCell c else c)) ∧
    (∀ c, (CrossDel.clearCell c).lo = c.lo ∧ (CrossDel.clearCell c).hi = c.hi ∧
      (CrossDel.clearCell c).content = "") ∧
    (∀ c, CrossDel.isCellInSelection rs re c = false →
      (if CrossDel.isCellInSelection rs re c then CrossDel.clearCell c else c) = c) ∧
    (∀ k, anchor = some k →
      (CrossDel.handleCrossCellDelete rows rs re anchor).2 = some k) := by
  refine ⟨?_, ?_, ?_, ?_, ?_, ?_, ?_⟩
  · simp [CrossDel.handleCrossCellDelete]
  · intro i
    simp [CrossDel.handleCrossCellDelete, List.getElem?_map]
    cases hrow : rows[i]? <;> simp [hrow]
  · simp only [CrossDel.handleCrossCellDelete, List.length_flatten, List.map_map]
    congr 1
    apply List.map_congr_left
    intro row _
    simp
  · intro i j
    simp only [CrossDel.handleCrossCellDelete, List.getElem?_map]
    cases hrow : rows[i]? <;> simp [hrow, List.getElem?_map]
  · intro c
    simp [CrossDel.clearCell]
  · intro c hc
    simp [hc]
  · intro k hk
    simp [CrossDel.handleCrossCellDelete, hk]

/-- Witness for C8: a one-row, two-cell table with a range covering only
the first cell; the anchor resolves to cell 1 and the cursor lands there. -/
theorem handleCrossCellDelete_witness :
    (CrossDel.handleCrossCellDelete
        [[{ content := "a", lo := 0, hi := 2 }, { content := "b", lo := 2, hi := 4 }]]
        0 1 (some 1)).2 = some 1 ∧
    (CrossDel.handleCrossCellDelete
        [[{ content := "a", lo := 0, hi := 2 }, { content := "b", lo := 2, hi := 4 }]]
        0 1 (some 1)).1.flatten.length =
      ([[({ content := "a", lo := 0, hi := 2 } : CrossDel.GCell),
         { content := "b", lo := 2, hi := 4 }]] : List (List CrossDel.GCell)).flatten.length :=
  ⟨(handleCrossCellDelete_clears_intersected
      [[{ content := "a", lo := 0, hi := 2 }, { content := "b", lo := 2, hi := 4 }]]
      0 1 (some 1)).2.2.2.2.2.2 1 rfl,
   (handleCrossCellDelete_clears_intersected
      [[{ content := "a", lo := 0, hi := 2 }, { content := "b", lo := 2, hi := 4 }]]
      0 1 (some 1)).2.2.1⟩

/-- The claim's tag list is contained in the code's removal list. -/
theorem mem_badTags_mem_remove {tag : String} (h : tag ∈ Sanitize.badTagsClaim) :
    tag ∈ Sanitize.REMOVE_WITH_CONTENT := by
  simp only [Sanitize.badTagsClaim, List.mem_cons, List.not_mem_nil, or_false] at h
  rcases h with h|h|h|h|h|h|h|h|h|h|h <;> simp [Sanitize.REMOVE_WITH_CONTENT, h]

/-- Attributes surviving the `cleanNode` attribute loop satisfy the
claim's attribute safety predicate. -/
theorem attrKeep_attrSafe (a : String × String) (h : Sanitize.attrKeep a = true) :
    Sanitize.attrSafe a = true := by
  simp only [Sanitize.attrKeep] at h
  split_ifs at h with h1 h2 h3 h4
  · simp at h3
    simp [Sanitize.attrSafe, h1, h2, h3, h4, h]
  · simp at h3
    simp [Sanitize.attrSafe, h1, h2, h3, h4]

/-- C7: Every output of `sanitizeHtml` is safe: no
script/style/iframe/object/embed/applet/form/input/textarea/select/button
element survives (nor any content of one), and every remaining attribute
has a non-`on`, non-`style`, allow-listed name and — for `href`/`src` —
no `javascript:`/`data:text/html` value. -/
theorem sanitizeHtml_safe (l : List Sanitize.HNode) :
    Sanitize.forestSafe (Sanitize.sanitizeHtml l) = true := by
  induction l using Sanitize.sanitizeHtml.induct with
  | case1 => simp [Sanitize.sanitizeHtml, Sanitize.forestSafe]
  | case2 tag attrs kids rest hmem ih =>
    simpa [Sanitize.sanitizeHtml, hmem] using ih
  | case3 tag attrs kids rest hmem ihkids ihrest =>
    have htag : tag ∉ Sanitize.badTagsClaim := fun hb => hmem (mem_badTags_mem_remove hb)
    have hattrs : (attrs.filter Sanitize.attrKeep).all Sanitize.attrSafe = true := by
      rw [List.all_eq_true]
      intro a ha
      exact attrKeep_attrSafe a (List.of_mem_filter ha)
    simp [Sanitize.sanitizeHtml, Sanitize.forestSafe, hmem, htag, hattrs, ihkids, ihrest]
  | case4 s rest ih =>
    simpa [Sanitize.sanitizeHtml, Sanitize.forestSafe] using ih
  | case5 s rest ih =>
    simpa [Sanitize.sanitizeHtml, Sanitize.forestSafe] using ih

/-- C9: Whenever `canUndo` holds, `undo()` then `redo()` restores both
stacks exactly: `undo` moves the top of the undo stack (unchanged) onto
the redo stack, `redo` moves it back and returns precisely that entry,
and the multiset of entries across the two stacks is conserved. -/
theorem history_undo_redo_roundtrip (s : Hist.HistoryState)
    (h : Hist.canUndo s = true) :
    (Hist.redo (Hist.undo s).2).2 = s ∧
    (Hist.redo (Hist.undo s).2).1 = s.undoStack.getLast? ∧
    (Hist.undo s).2.undoStack = s.undoStack.dropLast ∧
    (Hist.undo s).1 = s.undoStack.dropLast.getLast? ∧
    List.Perm ((Hist.undo s).2.undoStack ++ (Hist.undo s).2.redoStack)
      (s.undoStack ++ s.redoStack) := by
  have hlen : 1 < s.undoStack.length := by
    simpa [Hist.canUndo] using h
  have hne : s.undoStack ≠ [] := by
    intro hcon
    rw [hcon] at hlen
    simp at hlen
  have hlast : s.undoStack.getLast? = some (s.undoStack.getLast hne) :=
    List.getLast?_eq_getLast s.undoStack hne
  have hglue : s.undoStack.dropLast ++ [s.undoStack.getLast hne] = s.undoStack :=
    List.dropLast_append_getLast hne
  have hundo : Hist.undo s =
      (s.undoStack.dropLast.getLast?,
       { undoStack := s.undoStack.dropLast,
         redoStack := s.redoStack ++ [s.undoStack.getLast hne] }) := by
    simp [Hist.undo, h, hlast]
  have hredo : Hist.redo (Hist.undo s).2 =
      (some (s.undoStack.getLast hne),
       { undoStack := s.undoStack.dropLast ++ [s.undoStack.getLast hne],
         redoStack := s.redoStack }) := by
    rw [hundo]
    simp [Hist.redo, Hist.canRedo, List.getLast?_concat, List.dropLast_concat]
  refine ⟨?_, ?_, ?_, ?_, ?_⟩
  · rw [hredo]
    simp [hglue]
  · rw [hredo, hlast]
  · rw [hundo]
  · rw [hundo]
  · rw [hundo]
    have p1 : List.Perm (s.redoStack ++ [s.undoStack.getLast hne])
        ([s.undoStack.getLast hne] ++ s.redoStack) := List.perm_append_comm
    have p2 := List.Perm.append_left s.undoStack.dropLast p1
    refine p2.trans ?_
    rw [← List.append_assoc, hglue]

/-- Witness for C9 on a two-entry undo stack. -/
theorem history_undo_redo_roundtrip_witness :
    (Hist.redo (Hist.undo
        { undoStack := [{ markdown := "a", timestamp := 0 },
                        { markdown := "b", timestamp := 1 }],
          redoStack := [] }).2).2 =
      { undoStack := [{ markdown := "a", timestamp := 0 },
                      { markdown := "b", timestamp := 1 }],
        redoStack := [] } :=
  (history_undo_redo_roundtrip
    { undoStack := [{ markdown := "a", timestamp := 0 },
                    { markdown := "b", timestamp := 1 }],
      redoStack := [] } (by decide)).1

/-- Auxiliary invariant: along every reachable history state the two
stacks together hold at most `maxDepth` entries. -/
theorem reached_sum_le (d : Nat) (hd : 1 ≤ d) (s : Hist.HistoryState)
    (hr : Hist.Reached d s) :
    s.undoStack.length + s.redoStack.length ≤ d := by
  induction hr with
  | step_init md ts => simpa [Hist.init] using hd
  | step_push md ts s hr ih =>
    unfold Hist._push
    cases hl : s.undoStack.getLast? with
    | some top =>
      dsimp only
      by_cases he : top.markdown = md
      · rw [if_pos he]
        exact ih
      · rw [if_neg he]
        dsimp only
        split
        · rename_i hlt
          simp only [List.length_drop, List.length_append, List.length_cons,
            List.length_nil] at hlt ⊢
          omega
        · rename_i hlt
          simp only [List.length_append, List.length_cons, List.length_nil] at hlt ⊢
          omega
    | none =>
      dsimp only
      split
      · rename_i hlt
        simp only [List.length_drop, List.length_append, List.length_cons,
          List.length_nil] at hlt ⊢
        omega
      · rename_i hlt
        simp only [List.length_append, List.length_cons, List.length_nil] at hlt ⊢
        omega
  | step_undo s hr ih =>
    unfold Hist.undo
    by_cases hcu : Hist.canUndo s = false
    · rw [if_pos hcu]
      exact ih
    · rw [if_neg hcu]
      have hlen : 1 < s.undoStack.length := by
        have hb : Hist.canUndo s = true := by
          cases hb : Hist.canUndo s
          · exact absurd hb hcu
          · rfl
        simpa [Hist.canUndo] using hb
      cases hl : s.undoStack.getLast? with
      | none => exact ih
      | some current =>
        dsimp only
        simp only [List.length_dropLast, List.length_append, List.length_cons,
          List.length_nil]
        omega
  | step_redo s hr ih =>
    unfold Hist.redo
    by_cases hcr : Hist.canRedo s = false
    · rw [if_pos hcr]
      exact ih
    · rw [if_neg hcr]
      have hlen : 0 < s.redoStack.length := by
        have hb : Hist.canRedo s = true := by
          cases hb : Hist.canRedo s
          · exact absurd hb hcr
          · rfl
        simpa [Hist.canRedo] using hb
      cases hl : s.redoStack.getLast? with
      | none => exact ih
      | some entry =>
        dsimp only
        simp only [List.length_dropLast, List.length_append, List.length_cons,
          List.length_nil]
        omega
  | step_clear s hr ih =>
    simp [Hist.clear]

/-- C4: After every history operation the undo stack holds at most
`maxDepth` entries; a push that would exceed the bound drops entries from
the *front* (oldest) of the stack — the appended stack splits into the
dropped front part and the kept part, and the newest entry is always
retained as the top. -/
theorem history_depth_bound (d : Nat) (hd : 1 ≤ d) :
    (∀ s, Hist.Reached d s → s.undoStack.length ≤ d) ∧
    (∀ (md : String) (ts : Nat) (s : Hist.HistoryState) (top : Hist.HistoryEntry),
      s.undoStack.getLast? = some top → top.markdown ≠ md →
      d < s.undoStack.length + 1 →
      (Hist._push d md ts s).undoStack =
        (s.undoStack ++ [Hist.HistoryEntry.mk md ts]).drop
          (s.undoStack.length + 1 - d) ∧
      (s.undoStack ++ [Hist.HistoryEntry.mk md ts]).take
          (s.undoStack.length + 1 - d) ++ (Hist._push d md ts s).undoStack =
        s.undoStack ++ [Hist.HistoryEntry.mk md ts] ∧
      (Hist._push d md ts s).undoStack.getLast? =
        some (Hist.HistoryEntry.mk md ts)) := by
  constructor
  · intro s hr
    have := reached_sum_le d hd s hr
    omega
  · intro md ts s top hl htop hlt
    have hlt' : d < (s.undoStack ++ [Hist.HistoryEntry.mk md ts]).length := by
      simp only [List.length_append, List.length_cons, List.length_nil]
      omega
    have hu : (Hist._push d md ts s).undoStack =
        (s.undoStack ++ [Hist.HistoryEntry.mk md ts]).drop
          (s.undoStack.length + 1 - d) := by
      unfold Hist._push
      rw [hl]
      dsimp only
      rw [if_neg htop]
      dsimp only
      rw [if_pos hlt']
      congr 1
      simp only [List.length_append, List.length_cons, List.length_nil]
    refine ⟨hu, ?_, ?_⟩
    · rw [hu, List.take_append_drop]
    · rw [hu]
      have hk : s.undoStack.length + 1 - d ≤ s.undoStack.length := by omega
      rw [List.drop_append_of_le_length hk, List.getLast?_concat]

/-- Witness for C4 with `maxDepth = 2`: after `init "a"` and pushes of
`"b"` and `"c"` the undo stack stays within the bound and the newest
entry is the retained top. -/
theorem history_depth_bound_witness :
    (Hist._push 2 "c" 2 (Hist._push 2 "b" 1 (Hist.init "a" 0))).undoStack.length ≤ 2 ∧
    (Hist._push 2 "c" 2 (Hist._push 2 "b" 1 (Hist.init "a" 0))).undoStack.getLast? =
      some (Hist.HistoryEntry.mk "c" 2) :=
  ⟨(history_depth_bound 2 (by decide)).1 _
      (Hist.Reached.step_push "c" 2 _
        (Hist.Reached.step_push "b" 1 _ (Hist.Reached.step_init "a" 0))),
   ((history_depth_bound 2 (by decide)).2 "c" 2
      (Hist._push 2 "b" 1 (Hist.init "a" 0)) (Hist.HistoryEntry.mk "b" 1)
      (by decide) (by decide) (by decide)).2.2⟩

/-- Padding each joined piece with spaces commutes with the join: the
code's `join('|')` of `\x20…\x20` pieces is the spec's `\x20|\x20`-joined
line body. -/
theorem joinSep_pad (l : List Slug.Str) (h : l ≠ []) :
    TableSer.joinSep ['|'] (l.map (fun x => ' ' :: x ++ [' '])) =
      ' ' :: TableSer.joinSep [' ', '|', ' '] l ++ [' '] := by
  induction l with
  | nil => cases h rfl
  | cons x xs ih =>
    cases xs with
    | nil => simp [TableSer.joinSep]
    | cons y rest =>
      have ih' := ih (by simp)
      simp only [List.map_cons] at ih' ⊢
      simp only [TableSer.joinSep]
      rw [ih']
      simp

/-- The `tableRow` rule produces exactly the spec's `| cell | cell |`
line for a non-empty row. -/
theorem tableRowRule_spec (cells : List Slug.Str) (h : cells ≠ []) :
    TableSer.tableRowRule cells = TableSer.specRowLine cells := by
  have hp := joinSep_pad (cells.map TableSer.cellContent) (by simpa using h)
  rw [List.map_map] at hp
  unfold TableSer.tableRowRule TableSer.specRowLine
  simp only [Function.comp_def] at hp
  rw [hp]
  simp

/-- The header separator produced by the `tableHead` rule is the spec's
separator with one `---` segment per header column. -/
theorem headSeparator_spec (cells : List Slug.Str) (h : cells ≠ []) :
    TableSer.headSeparator cells = TableSer.specSeparator cells.length := by
  have hn : 0 < cells.length := List.length_pos.mpr h
  have hp := joinSep_pad (List.replicate cells.length (['-', '-', '-'] : Slug.Str))
    (by simp [← List.length_pos]; omega)
  rw [List.map_replicate] at hp
  unfold TableSer.headSeparator TableSer.specSeparator
  rw [List.map_const']
  simp only [List.cons_append, List.nil_append] at hp ⊢
  rw [hp]
  simp

/-- Trimming only removes characters: membership is preserved downward. -/
theorem mem_of_mem_jsTrim {c : Char} {s : Slug.Str} (h : c ∈ Slug.jsTrim s) :
    c ∈ s := by
  unfold Slug.jsTrim at h
  rw [List.mem_reverse] at h
  have h2 := (List.dropWhile_sublist _).subset h
  rw [List.mem_reverse] at h2
  exact (List.dropWhile_sublist _).subset h2

/-- A serialized cell contains no newline: the newline-to-space replace
removes them all and trimming adds nothing. -/
theorem newline_not_mem_cellContent (s : Slug.Str) :
    '\n' ∉ TableSer.cellContent s := by
  intro hmem
  have h1 : '\n' ∈ TableSer.collapseNl s := mem_of_mem_jsTrim hmem
  unfold TableSer.collapseNl at h1
  rw [List.mem_map] at h1
  obtain ⟨a, _, ha⟩ := h1
  by_cases h : a = '\n' <;> simp [h] at ha

/-- Every row line ends in exactly one newline character. -/
theorem tableRowRule_ends_nl (r : List Slug.Str) :
    ∃ u, TableSer.tableRowRule r = u ++ ['\n'] := by
  refine ⟨'|' :: TableSer.joinSep ['|']
    (r.map (fun c => ' ' :: TableSer.cellContent c ++ [' '])) ++ ['|'], ?_⟩
  simp [TableSer.tableRowRule]

/-- The separator line ends in a newline character. -/
theorem headSeparator_ends_nl (r : List Slug.Str) :
    ∃ u, TableSer.headSeparator r = u ++ ['\n'] := by
  refine ⟨'|' :: TableSer.joinSep ['|']
    (r.map (fun _ => [' ', '-', '-', '-', ' '])) ++ ['|'], ?_⟩
  simp [TableSer.headSeparator]

/-- The concatenation of serialized body rows ends in a newline. -/
theorem bodyRows_ends_nl (bs : List (List Slug.Str)) (h : bs ≠ []) :
    ∃ v, (bs.map TableSer.tableRowRule).flatten = v ++ ['\n'] := by
  induction bs with
  | nil => cases h rfl
  | cons r rest ih =>
    cases rest with
    | nil =>
      obtain ⟨u, hu⟩ := tableRowRule_ends_nl r
      exact ⟨u, by simp [hu]⟩
    | cons r2 rest2 =>
      obtain ⟨v, hv⟩ := ih (by simp)
      refine ⟨TableSer.tableRowRule r ++ v, ?_⟩
      simp only [List.map_cons, List.flatten_cons] at hv ⊢
      rw [hv]
      simp

/-- C5: Serializing a table with header row `hrow` and body rows `bs`
yields: a blank line, then the header as one `| cell | cell |` line (cells
newline-collapsed and trimmed), immediately followed by one separator line
holding one `---` segment per header column, then one such line per body
row, then a blank line; no serialized cell contains a newline, and the
output carries the leading and trailing blank-line padding. -/
theorem tableRule_gfm_shape (hrow : List Slug.Str) (bs : List (List Slug.Str))
    (hh : hrow ≠ []) (hb : ∀ r ∈ bs, r ≠ []) :
    TableSer.tableRule [hrow] bs =
      ['\n', '\n'] ++ TableSer.specRowLine hrow ++
        TableSer.specSeparator hrow.length ++
        (bs.map TableSer.specRowLine).flatten ++ ['\n'] ∧
    (∀ s : Slug.Str, '\n' ∉ TableSer.cellContent s) ∧
    (∃ core, TableSer.tableRule [hrow] bs = ['\n', '\n'] ++ core ++ ['\n', '\n']) := by
  have hbody : bs.map TableSer.tableRowRule = bs.map TableSer.specRowLine :=
    List.map_congr_left (fun r hr => tableRowRule_spec r (hb r hr))
  refine ⟨?_, fun s => newline_not_mem_cellContent s, ?_⟩
  · unfold TableSer.tableRule TableSer.tableHeadRule TableSer.tableBodyRule
    simp only [List.map_cons, List.map_nil, List.flatten_cons, List.flatten_nil,
      List.head?_cons, List.append_nil]
    rw [tableRowRule_spec hrow hh, headSeparator_spec hrow hh, hbody]
    simp [List.append_assoc]
  · by_cases hbs : bs = []
    · subst hbs
      obtain ⟨u, hu⟩ := headSeparator_ends_nl hrow
      refine ⟨TableSer.tableRowRule hrow ++ u, ?_⟩
      unfold TableSer.tableRule TableSer.tableHeadRule TableSer.tableBodyRule
      simp only [List.map_cons, List.map_nil, List.flatten_cons, List.flatten_nil,
        List.head?_cons, List.append_nil]
      rw [hu]
      simp
    · obtain ⟨v, hv⟩ := bodyRows_ends_nl bs hbs
      refine ⟨TableSer.tableRowRule hrow ++ TableSer.headSeparator hrow ++ v, ?_⟩
      unfold TableSer.tableRule TableSer.tableHeadRule TableSer.tableBodyRule
      simp only [List.map_cons, List.map_nil, List.flatten_cons, List.flatten_nil,
        List.head?_cons, List.append_nil]
      rw [hv]
      simp

/-- Witness for C5: the 2-column table with header cells `A`,`B` and one
body row `1`,`2`. -/
theorem tableRule_gfm_shape_witness :
    TableSer.tableRule [[['A'], ['B']]] [[['1'], ['2']]] =
      ['\n', '\n'] ++ TableSer.specRowLine [['A'], ['B']] ++
        TableSer.specSeparator ([['A'], ['B']] : List Slug.Str).length ++
        (([[['1'], ['2']]] : List (List Slug.Str)).map TableSer.specRowLine).flatten ++
        ['\n'] :=
  (tableRule_gfm_shape [['A'], ['B']] [[['1'], ['2']]] (by decide) (by decide)).1

/-- Counterexample for C1 as originally stated over *every* selection: a
collapsed caret sitting at structural level inside a table (ancestor
chain `TR`,`TABLE` for the common ancestor and both endpoints).  The
code's `isSelectionCrossCell` short-circuits every collapsed selection to
`false`, while the claimed 4-branch procedure — neither endpoint
resolving to a cell — yields `true`. -/
theorem isSelectionCrossCell_collapsed_counterexample :
    Sel.isSelectionCrossCell
        { collapsed := true,
          commonAncestor := [{ id := 2, isElem := true, tag := "TR", editable := false },
                             { id := 1, isElem := true, tag := "TABLE", editable := false }],
          startC := [{ id := 2, isElem := true, tag := "TR", editable := false },
                     { id := 1, isElem := true, tag := "TABLE", editable := false }],
          endC := [{ id := 2, isElem := true, tag := "TR", editable := false },
                   { id := 1, isElem := true, tag := "TABLE", editable := false }] } = false ∧
    Sel.crossCellSpec
        { collapsed := true,
          commonAncestor := [{ id := 2, isElem := true, tag := "TR", editable := false },
                             { id := 1, isElem := true, tag := "TABLE", editable := false }],
          startC := [{ id := 2, isElem := true, tag := "TR", editable := false },
                     { id := 1, isElem := true, tag := "TABLE", editable := false }],
          endC := [{ id := 2, isElem := true, tag := "TR", editable := false },
                   { id := 1, isElem := true, tag := "TABLE", editable := false }] } = true :=
  ⟨by decide, by decide⟩
